import Mathlib

/-!
Shallow embedding of `sample_code/tabular_data/dhs_util.py` (Allegheny DHS
synthetic-data utilities) and proofs about its tabular pipeline.

A pandas DataFrame of transaction records is modelled as a `List Row`;
categorical column domains are passed explicitly where pandas semantics
depend on them (`observed=False` groupbys).  NaN cells are modelled with
`Option`, float NaN/inf with `PandasFloat`.  Python `dict` (insertion
ordered) is modelled as an association list.
-/

namespace DhsUtil

/-- Calendar date, standing for a pandas `Timestamp` at day resolution.
`month` is the month-of-year number 1..12 (pandas `.dt.month`). -/
structure Date where
  year : Nat
  month : Nat
  day : Nat
deriving DecidableEq

/-- Chronological strict order on dates (lexicographic year, month, day),
the order pandas uses for `min`/`max` over a datetime column. -/
def Date.lt (a b : Date) : Prop :=
  a.year < b.year ∨ (a.year = b.year ∧
    (a.month < b.month ∨ (a.month = b.month ∧ a.day < b.day)))

instance : DecidableRel Date.lt := by
  intro a b; unfold Date.lt; infer_instance

/-- One transaction record of the canonical (post-preprocessing) table:
one row per service-recipient-date event.  `serv` and `age_bin` are the
columns added later by `add_service_label` / `add_age_bin`; before those
calls they hold `none` (column values missing). -/
structure Row where
  id : Nat
  service : String
  date : Date
  month : String
  age : Int
  gender : String
  race : String
  marital : String
  education : String
  serv : Option String
  age_bin : Option String
deriving DecidableEq

/-- First-occurrence deduplication keyed by `key`: the model of pandas
`drop_duplicates(subset=[key])` (keep first) and, with the identity key,
of `Series.unique()` (distinct values in order of first appearance). -/
def dedupByFirst {α : Type} {β : Type} [BEq β] (key : α → β) (l : List α) : List α :=
  l.foldl (fun acc r => if acc.any (fun a => key a == key r) then acc else acc ++ [r]) []

/-- Model of pandas `Series.unique()`: distinct values in order of first
appearance. -/
def uniqueL {α : Type} [BEq α] (l : List α) : List α :=
  dedupByFirst (fun x => x) l

/-- Minimum of a list of dates (pandas `min` aggregation over a datetime
column).  The `[]` case is unreachable wherever this is used (groups are
nonempty); it returns a dummy date. -/
def dateMin (l : List Date) : Date :=
  match l with
  | [] => ⟨0, 0, 0⟩
  | d :: ds => ds.foldl (fun a b => if Date.lt b a then b else a) d

/-- Maximum of a list of dates (pandas `max` aggregation). -/
def dateMax (l : List Date) : Date :=
  match l with
  | [] => ⟨0, 0, 0⟩
  | d :: ds => ds.foldl (fun a b => if Date.lt a b then b else a) d

/-- Result of a pandas float-valued arithmetic cell: either NaN, +inf, or a
rational value.  Integer division `a / b` in pandas yields NaN for `0/0`
and +inf for `a/0`, `a > 0`. -/
inductive PandasFloat where
  | nan : PandasFloat
  | inf : PandasFloat
  | val : ℚ → PandasFloat
deriving DecidableEq

/-- Pandas division of two natural-number cells, producing a float cell. -/
def natDivF (a b : Nat) : PandasFloat :=
  if b = 0 then (if a = 0 then .nan else .inf) else .val ((a : ℚ) / (b : ℚ))

/-- Decimal digit list of a natural number, most significant first, with a
structural fuel argument so that it evaluates by kernel reduction; any
`fuel > n` gives the true digit list. -/
def natDigitsF (fuel n : Nat) : List Char :=
  match fuel with
  | 0 => []
  | f + 1 =>
    if n < 10 then [Nat.digitChar n]
    else natDigitsF f (n / 10) ++ [Nat.digitChar (n % 10)]

/-- Decimal digit list of a natural number, most significant first: the
model of Python `str(n)` for `n : Nat` (no sign, no leading zeros). -/
def natDigits (n : Nat) : List Char := natDigitsF (n + 1) n

/-- Python `str(n)` for a natural number. -/
def pyStr (n : Nat) : String := ⟨natDigits n⟩

/-- Python `str.zfill(w)`: left-pad with the character 0 up to width `w`.
(The Python method also moves a leading sign; the inputs here are unsigned
digit strings, where that branch is inert.) -/
def zfill (w : Nat) (s : String) : String :=
  if s.length < w then ⟨List.replicate (w - s.length) '0'⟩ ++ s else s

/-- Python `dict` lookup `m.get(s)` on an insertion-ordered association
list, as used by pandas `Series.map(service_map)`: `none` models the NaN
produced for an unmapped value. -/
def dict_get (m : List (String × String)) (s : String) : Option String :=
  (m.find? (fun kv => kv.1 == s)).map (fun kv => kv.2)

/-- Python exceptions that the embedded code can raise. `stopIteration`
is what `next` raises on an exhausted generator; `notFoundError` is the
error name the specification assigns to a reverse-lookup miss (no such
class exists in the source). -/
inductive PyExc where
  | stopIteration : PyExc
  | notFoundError : PyExc
deriving DecidableEq

instance {ε α : Type} [DecidableEq ε] [DecidableEq α] : DecidableEq (Except ε α) :=
  fun a b =>
    match a, b with
    | .ok x, .ok y => if h : x = y then .isTrue (by rw [h]) else .isFalse (by simp [h])
    | .error x, .error y => if h : x = y then .isTrue (by rw [h]) else .isFalse (by simp [h])
    | .ok _, .error _ => .isFalse (by simp)
    | .error _, .ok _ => .isFalse (by simp)

/-! ### Embeddings of the functions of `dhs_util.py` -/

/-- Embedding of the list comprehension in `add_service_label`:
`['S'+str(i).zfill(2) for i in range(1, 1+n)]`, the sequential zero-padded
service codes S01, S02, ... . -/
def serv_list (n : Nat) : List String :=
  (List.range n).map (fun i => "S" ++ zfill 2 (pyStr (i + 1)))

/-- Embedding of `service_map` built in `add_service_label`:
`dict(zip(df.service.unique(), serv_list))`, an insertion-ordered map from
each distinct service value (in order of first appearance) to its code. -/
def service_map (rows : List Row) : List (String × String) :=
  let u := uniqueL (rows.map (fun r => r.service))
  u.zip (serv_list u.length)

/-- Embedding of `add_service_label(df)`: builds `service_map` and writes
`df['serv'] = df['service'].map(service_map)` into the table.  The Python
function mutates `df` in place and returns it; the returned row list is
therefore both the result and the post-call state of the argument. -/
def add_service_label (rows : List Row) : List Row × List (String × String) :=
  let m := service_map rows
  (rows.map (fun r => { r with serv := dict_get m r.service }), m)

/-- Embedding of `service_lookup(serv, service_map)`:
`next(key for key, value in service_map.items() if value == serv)` — the
first key whose mapped value equals `serv`; `next` on the exhausted
generator raises `StopIteration` when no key matches. -/
def service_lookup (serv : String) (m : List (String × String)) : Except PyExc String :=
  match m.find? (fun kv => kv.2 == serv) with
  | some kv => .ok kv.1
  | none => .error .stopIteration

/-- Embedding of `bins = np.linspace(0, 100, 11).astype(int)` in
`add_age_bin`: the edges 0, 10, ..., 100. -/
def age_bins : List Int :=
  (List.range 11).map (fun i => (10 * i : Int))

/-- Embedding of the bin names built in `add_age_bin`:
`bins_lower = np.roll(bins - 1, -1)` pairs each edge with the next edge
minus one, giving "0-9", ..., "90-99", and the last name (paired with the
rolled-around `-1`) is overwritten with "100+". -/
def bin_names : List String :=
  let lower := (age_bins.map (fun b => b - 1)).rotate 1
  let names := (age_bins.zip lower).map
    (fun ab => (if ab.1 < 0 then "-" ++ pyStr ab.1.natAbs else pyStr ab.1.toNat) ++ "-"
      ++ (if ab.2 < 0 then "-" ++ pyStr ab.2.natAbs else pyStr ab.2.toNat))
  names.dropLast ++ ["100+"]

/-- Embedding of `bin_name_map = dict(zip(range(1, 1+len(bin_names)), bin_names))`. -/
def bin_name_map : List (Nat × String) :=
  (List.range bin_names.length).map (fun i => (i + 1, bin_names.get! i))

/-- Embedding of `np.digitize(age, bins)` for increasing `bins` with the
default `right=False`: the number of bin edges `≤ age`. -/
def digitize (a : Int) (bins : List Int) : Nat :=
  (bins.filter (fun b => b ≤ a)).length

/-- The `age_bin` label of one age value, as computed by `add_age_bin`:
digitize into `age_bins`, then map the bin index through `bin_name_map`
(`none` models the NaN a negative age would produce, its digitize index 0
being absent from the map). -/
def age_bin_label (a : Int) : Option String :=
  ((bin_name_map.find? (fun kv => kv.1 == digitize a age_bins)).map (fun kv => kv.2))

/-- Embedding of `add_age_bin(df)`: writes the mapped `age_bin` column
into the table.  As with `add_service_label`, the Python function mutates
`df` in place and returns it. -/
def add_age_bin (rows : List Row) : List Row :=
  rows.map (fun r => { r with age_bin := age_bin_label r.age })

/-- One output row of `get_recipient_attribute`.  The aggregate columns
come from the `groupby('id').agg(...)`; the demographic columns are merged
back from the transaction table (`Option`: a left-join miss would leave
them NaN). -/
structure RecipientRow where
  id : Nat
  num_service : Nat
  distinct_service : Nat
  first_date : Date
  last_date : Date
  num_month : Nat
  distinct_month : Nat
  age : Option Int
  gender : Option String
  race : Option String
  marital : Option String
  education : Option String
  serv : Option String
  age_bin : Option String
deriving DecidableEq

/-- The aggregate row of `get_recipient_attribute` for one recipient id:
`groupby('id').agg(...)` over that id group, demographic columns still
absent before the merge.  `num_month` counts non-NaN `month` cells, which
is the group size since every row carries a month name. -/
def agg_row (rows : List Row) (i : Nat) : RecipientRow :=
  let g := rows.filter (fun r => r.id == i)
  { id := i
    num_service := g.length
    distinct_service := (uniqueL (g.map (fun r => r.service))).length
    first_date := dateMin (g.map (fun r => r.date))
    last_date := dateMax (g.map (fun r => r.date))
    num_month := g.length
    distinct_month := (uniqueL (g.map (fun r => r.month))).length
    age := none, gender := none, race := none, marital := none
    education := none, serv := none, age_bin := none }

/-- The left-merge step of `get_recipient_attribute` for one aggregate
row: `pd.merge(recipient, df.drop(['service','date','month'], axis=1),
on='id', how='left')` replicates the aggregate row once per matching
transaction row, filling in that row demographics; with no match (which
cannot happen, as every key comes from `df`) the aggregate row is kept
with NaN demographics. -/
def merge_demo (rows : List Row) (rr : RecipientRow) : List RecipientRow :=
  match rows.filter (fun r => r.id == rr.id) with
  | [] => [rr]
  | ms => ms.map (fun r =>
      { rr with age := some r.age, gender := some r.gender, race := some r.race,
                marital := some r.marital, education := some r.education,
                serv := r.serv, age_bin := r.age_bin })

/-- Embedding of `get_recipient_attribute(df)`:
group by `id` (distinct ids, sorted ascending as pandas `groupby` sorts
keys) aggregating counts, distinct counts and min/max dates; left-merge
the non-grouping columns of `df` back on `id`; then
`drop_duplicates(subset=['id'])`, keeping the first row per id. -/
def get_recipient_attribute (rows : List Row) : List RecipientRow :=
  let keys := List.insertionSort (fun a b => a ≤ b) (uniqueL (rows.map (fun r => r.id)))
  let recipient : List RecipientRow := keys.map (agg_row rows)
  let merged := recipient.flatMap (merge_demo rows)
  dedupByFirst (fun rr => rr.id) merged

/-- One output row of `get_service_attribute`. -/
structure ServiceRow where
  service : String
  total_usage : Nat
  num_recipient : Nat
  distinct_month : Nat
  avg_monthly_recipient : PandasFloat
deriving DecidableEq

/-- Embedding of `get_service_attribute(df)`: `df.groupby(['service'])`
on the categorical `service` column groups over every category of its
domain (`cats`), including categories with no remaining rows; then
`avg_monthly_recipient = total_usage / distinct_month` is the pandas
float division of the two integer columns. -/
def get_service_attribute (cats : List String) (rows : List Row) : List ServiceRow :=
  cats.map (fun c =>
    let g := rows.filter (fun r => r.service == c)
    { service := c
      total_usage := g.length
      num_recipient := (uniqueL (g.map (fun r => r.id))).length
      distinct_month := (uniqueL (g.map (fun r => r.month))).length
      avg_monthly_recipient := natDivF g.length (uniqueL (g.map (fun r => r.month))).length })

/-- Non-strict chronological order on dates. -/
def Date.le (a b : Date) : Prop := Date.lt a b ∨ a = b

instance : DecidableRel Date.le := by
  intro a b; unfold Date.le; infer_instance

/-- The `first_date` aggregate of `get_retention_cohort`: the minimum
event date of one recipient id (`groupby(['id']).agg(first_date=('date','min'))`). -/
def recipient_first_date (rows : List Row) (i : Nat) : Date :=
  dateMin ((rows.filter (fun r => r.id == i)).map (fun r => r.date))

/-- One row of the merged `df_retention` table inside
`get_retention_cohort`: the transaction row, its recipient's first event
date, and the `elapsed` column. -/
structure RetentionRow where
  base : Row
  first_date : Date
  elapsed : Int
deriving DecidableEq

/-- One row of the merged `df_retention` table: the transaction row with
its recipient first date attached (the left merge with the per-id
aggregate has exactly one match per row) and
`elapsed = df['date'].dt.month - df['first_date'].dt.month`, the raw
subtraction of month-of-year numbers. -/
def mk_retention (rows : List Row) (r : Row) : RetentionRow :=
  { base := r
    first_date := recipient_first_date rows r.id
    elapsed := (r.date.month : Int) - ((recipient_first_date rows r.id).month : Int) }

/-- Embedding of the `df_retention` table of `get_retention_cohort`. -/
def df_retention (rows : List Row) : List RetentionRow :=
  rows.map (mk_retention rows)

/-- The column labels of the pivoted retention table: the distinct
`elapsed` values, sorted ascending (pandas `pivot` sorts column labels). -/
def elapsed_cols (rows : List Row) : List Int :=
  List.insertionSort (fun a b => a ≤ b) (uniqueL ((df_retention rows).map (fun x => x.elapsed)))

/-- The row index of the pivoted retention table: the distinct cohort
first dates, sorted ascending. -/
def cohort_dates (rows : List Row) : List Date :=
  List.insertionSort Date.le (uniqueL ((df_retention rows).map (fun x => x.first_date)))

/-- One cell of the pivoted `df_retention_count` table: the `num_active`
count of distinct recipient ids grouped by `(first_date, elapsed)`, or
`none` (NaN) when the combination never occurs (`pivot` leaves missing
combinations absent; present groups are nonempty, so a present cell is
at least 1). -/
def count_cell (rows : List Row) (fd : Date) (e : Int) : Option Nat :=
  let g := (df_retention rows).filter (fun x => x.first_date == fd && x.elapsed == e)
  if g.isEmpty then none
  else some (uniqueL (g.map (fun x => x.base.id))).length

/-- Embedding of the pivoted `df_retention_count` table: rows indexed by
cohort first date, columns by elapsed offset, cells `num_active`. -/
def df_retention_count (rows : List Row) : List (Date × List (Int × Option Nat)) :=
  (cohort_dates rows).map (fun fd =>
    (fd, (elapsed_cols rows).map (fun e => (e, count_cell rows fd e))))

/-- One cell of the retention ratio table.  The source divides the count
table row-wise by `df_retention_count.reset_index().iloc[:, 1]`, the first
data column of the pivot — the column of the SMALLEST elapsed value
(column labels are sorted), which is the elapsed-0 column only when no
elapsed value is negative.  NaN cells (missing count or missing divisor)
propagate to NaN. -/
def ratio_cell (rows : List Row) (fd : Date) (e : Int) : PandasFloat :=
  match count_cell rows fd e,
        ((elapsed_cols rows).head?.bind (fun e0 => count_cell rows fd e0)) with
  | some c, some d => natDivF c d
  | _, _ => .nan

/-- Embedding of the `df_retention_ratio` table returned by
`get_retention_cohort`: same index and columns as the count table, cells
divided by the row's first-column value. -/
def df_ratio_table (rows : List Row) : List (Date × List (Int × PandasFloat)) :=
  (cohort_dates rows).map (fun fd =>
    (fd, (elapsed_cols rows).map (fun e => (e, ratio_cell rows fd e))))

/-- Embedding of `get_retention_cohort(df)`: returns the count table and
the ratio table. -/
def get_retention_cohort (rows : List Row) :
    List (Date × List (Int × Option Nat)) × List (Date × List (Int × PandasFloat)) :=
  (df_retention_count rows, df_ratio_table rows)

/-- One `(id, serv)` cell aggregate of `get_id_service_matrix`:
`num_serv = ('service', 'nunique')`, the number of distinct `service`
values among the rows of this id carrying this service code. -/
def num_serv (rows : List Row) (i : Nat) (c : String) : Nat :=
  (uniqueL ((rows.filter (fun r => r.id == i && r.serv == some c)).map
    (fun r => r.service))).length

/-- Embedding of `get_id_service_matrix(df)`.  `servCats` is the category
domain of the categorical `serv` column; `groupby(["id","serv"],
observed=False)` drops rows whose `serv` key is NaN and produces every
pair of an observed id with a category (dense product), empty groups
aggregating to `nunique = 0`.  `pivot_table(..., aggfunc="sum",
observed=False)` then lays the pairs out as rows = ids, columns = all
categories, each cell summing the single matching `num_serv` entry. -/
def get_id_service_matrix (servCats : List String) (rows : List Row) :
    List (Nat × List (String × Nat)) :=
  let keyed := rows.filter (fun r => r.serv.isSome)
  let ids := List.insertionSort (fun a b => a ≤ b) (uniqueL (keyed.map (fun r => r.id)))
  let temp := ids.flatMap (fun i => servCats.map (fun c => ((i, c), num_serv rows i c)))
  ids.map (fun i =>
    (i, servCats.map (fun c =>
      (c, ((temp.filter (fun x => x.1.1 == i && x.1.2 == c)).map (fun x => x.2)).sum))))

/-! ### Concrete sample tables used by witnesses and counterexamples -/

/-- Row builder for sample tables: the given id, service, date and month
name, with fixed demographics and the derived columns still absent. -/
def mkRow (i : Nat) (s : String) (d : Date) (mo : String) : Row :=
  { id := i, service := s, date := d, month := mo, age := 0, gender := "F",
    race := "W", marital := "S", education := "HS", serv := none, age_bin := none }

/-- The three-transaction example table of the specification (id 1 uses
Food in January and February 2020, id 2 uses Housing in January 2020). -/
def rows_example : List Row :=
  [mkRow 1 "Food" ⟨2020, 1, 5⟩ "January",
   mkRow 1 "Food" ⟨2020, 2, 10⟩ "February",
   mkRow 2 "Housing" ⟨2020, 1, 20⟩ "January"]

/-- A table whose cohort spans a calendar year boundary: recipient 1 first
appears in December 2020 and returns in January 2021; recipient 2 appears
only in December 2020. -/
def rows_year_boundary : List Row :=
  [mkRow 1 "Food" ⟨2020, 12, 5⟩ "December",
   mkRow 1 "Food" ⟨2021, 1, 5⟩ "January",
   mkRow 2 "Food" ⟨2020, 12, 5⟩ "December"]

/-- A table with 100 distinct service values "0", "1", ..., "99". -/
def rows_hundred : List Row :=
  (List.range 100).map (fun k => mkRow k (pyStr k) ⟨2020, 1, 1⟩ "January")

/-- The `df_retention` row of the January 2021 transaction of recipient 1
in `rows_year_boundary`. -/
def ret_row_jan : RetentionRow :=
  { base := mkRow 1 "Food" ⟨2021, 1, 5⟩ "January",
    first_date := ⟨2020, 12, 5⟩, elapsed := -11 }

/-- Modelled from the claim wording of C9 for comparison with the code:
a service code zero-padded to the digit width needed for the count
`total` of distinct service values, with at least 2 digits. -/
def claim_code (total i : Nat) : String :=
  "S" ++ zfill (max 2 (pyStr total).length) (pyStr i)

/-- Category domain with the two services of the example tables. -/
def cats_fh : List String := ["Food", "Housing"]

/-- A table whose rows all use the Food service. -/
def rows_food_only : List Row := [mkRow 1 "Food" ⟨2020, 1, 5⟩ "January"]

/-- The Food summary row of `get_service_attribute cats_fh rows_food_only`. -/
def sr_food : ServiceRow :=
  { service := "Food", total_usage := 1, num_recipient := 1, distinct_month := 1,
    avg_monthly_recipient := natDivF 1 1 }

/-- The Housing summary row of `get_service_attribute cats_fh rows_food_only`:
an unobserved category, all aggregates zero, average NaN. -/
def sr_housing : ServiceRow :=
  { service := "Housing", total_usage := 0, num_recipient := 0, distinct_month := 0,
    avg_monthly_recipient := natDivF 0 0 }

/-- The matrix row of recipient 1 in the example table. -/
def mat_row_one : Nat × List (String × Nat) := (1, [("S01", 1), ("S02", 0)])

/-! ### Lemmas about `dedupByFirst` and `uniqueL` -/

theorem dedupByFirst_nil {α β : Type} [BEq β] (key : α → β) :
    dedupByFirst key [] = [] := rfl

theorem dedupByFirst_concat {α β : Type} [BEq β] (key : α → β) (l : List α) (x : α) :
    dedupByFirst key (l ++ [x]) =
      if (dedupByFirst key l).any (fun a => key a == key x) then dedupByFirst key l
      else dedupByFirst key l ++ [x] := by
  unfold dedupByFirst
  rw [List.foldl_append]
  simp

theorem mem_of_mem_dedupByFirst {α β : Type} [BEq β] {key : α → β} {a : α} {l : List α}
    (h : a ∈ dedupByFirst key l) : a ∈ l := by
  induction l using List.reverseRecOn with
  | nil => rw [dedupByFirst_nil] at h; exact absurd h (List.not_mem_nil a)
  | append_singleton l x ih =>
    rw [dedupByFirst_concat] at h
    by_cases hc : (dedupByFirst key l).any (fun b => key b == key x) = true
    · rw [if_pos hc] at h
      exact List.mem_append_left _ (ih h)
    · rw [if_neg hc] at h
      rcases List.mem_append.1 h with h1 | h1
      · exact List.mem_append_left _ (ih h1)
      · exact List.mem_append_right _ h1

theorem dedupByFirst_exists_key {α β : Type} [BEq β] [LawfulBEq β]
    (key : α → β) (l : List α) (k : β) :
    (∃ a ∈ dedupByFirst key l, key a = k) ↔ ∃ a ∈ l, key a = k := by
  induction l using List.reverseRecOn with
  | nil => simp [dedupByFirst_nil]
  | append_singleton l x ih =>
    rw [dedupByFirst_concat]
    by_cases hc : (dedupByFirst key l).any (fun b => key b == key x) = true
    · rw [if_pos hc]
      rw [List.any_eq_true] at hc
      obtain ⟨b, hb, hbx⟩ := hc
      rw [beq_iff_eq] at hbx
      constructor
      · intro ⟨a, ha, hak⟩
        exact ⟨a, List.mem_append_left _ (mem_of_mem_dedupByFirst ha), hak⟩
      · intro ⟨a, ha, hak⟩
        rcases List.mem_append.1 ha with h1 | h1
        · exact ih.2 ⟨a, h1, hak⟩
        · rcases List.mem_singleton.1 h1 with rfl
          exact ih.2 ⟨b, mem_of_mem_dedupByFirst hb, by rw [hbx, hak]⟩
    · rw [if_neg hc]
      constructor
      · intro ⟨a, ha, hak⟩
        rcases List.mem_append.1 ha with h1 | h1
        · obtain ⟨a2, ha2, hak2⟩ := ih.1 ⟨a, h1, hak⟩
          exact ⟨a2, List.mem_append_left _ ha2, hak2⟩
        · rcases List.mem_singleton.1 h1 with rfl
          exact ⟨a, List.mem_append_right _ (List.mem_singleton.2 rfl), hak⟩
      · intro ⟨a, ha, hak⟩
        rcases List.mem_append.1 ha with h1 | h1
        · obtain ⟨a2, ha2, hak2⟩ := ih.2 ⟨a, h1, hak⟩
          exact ⟨a2, List.mem_append_left _ ha2, hak2⟩
        · rcases List.mem_singleton.1 h1 with rfl
          exact ⟨a, List.mem_append_right _ (List.mem_singleton.2 rfl), hak⟩

theorem dedupByFirst_any {α β : Type} [BEq β] [LawfulBEq β]
    (key : α → β) (l : List α) (k : β) :
    (dedupByFirst key l).any (fun a => key a == k) = l.any (fun a => key a == k) := by
  rw [Bool.eq_iff_iff, List.any_eq_true, List.any_eq_true]
  simp only [beq_iff_eq]
  exact dedupByFirst_exists_key key l k

theorem dedupByFirst_countP {α β : Type} [BEq β] [LawfulBEq β]
    (key : α → β) (l : List α) (k : β) :
    (dedupByFirst key l).countP (fun a => key a == k) =
      if l.any (fun a => key a == k) then 1 else 0 := by
  induction l using List.reverseRecOn with
  | nil => simp [dedupByFirst_nil]
  | append_singleton l x ih =>
    rw [dedupByFirst_concat]
    rw [List.any_append]
    by_cases hc : (dedupByFirst key l).any (fun b => key b == key x) = true
    · rw [if_pos hc, ih]
      by_cases hxk : (key x == k) = true
      · rw [beq_iff_eq] at hxk
        have hl : l.any (fun a => key a == k) = true := by
          rw [← dedupByFirst_any key l k, List.any_eq_true]
          rw [List.any_eq_true] at hc
          obtain ⟨b, hb, hbx⟩ := hc
          rw [beq_iff_eq] at hbx
          exact ⟨b, hb, by rw [beq_iff_eq, hbx, hxk]⟩
        simp [hl]
      · rw [Bool.not_eq_true] at hxk
        cases hA : l.any (fun a => key a == k) <;> simp [hA, hxk]
    · rw [if_neg hc, List.countP_append, ih]
      by_cases hxk : (key x == k) = true
      · rw [beq_iff_eq] at hxk
        have hl : l.any (fun a => key a == k) = false := by
          rw [← dedupByFirst_any key l k]
          rw [Bool.eq_false_iff, Ne, List.any_eq_true]
          intro ⟨b, hb, hbk⟩
          rw [beq_iff_eq] at hbk
          apply hc
          rw [List.any_eq_true]
          exact ⟨b, hb, by rw [beq_iff_eq, hbk, hxk]⟩
        simp [hl, List.countP_cons, hxk]
      · rw [Bool.not_eq_true] at hxk
        cases hA : l.any (fun a => key a == k) <;> simp [hA, hxk, List.countP_cons]

theorem mem_uniqueL {α : Type} [BEq α] [LawfulBEq α] {a : α} {l : List α} :
    a ∈ uniqueL l ↔ a ∈ l := by
  have h := dedupByFirst_exists_key (fun x => x) l a
  simpa [uniqueL] using h

theorem nodup_uniqueL {α : Type} [BEq α] [LawfulBEq α] (l : List α) :
    (uniqueL l).Nodup := by
  unfold uniqueL
  induction l using List.reverseRecOn with
  | nil => simp [dedupByFirst_nil]
  | append_singleton l x ih =>
    rw [dedupByFirst_concat]
    by_cases hc : (dedupByFirst (fun y => y) l).any (fun b => b == x) = true
    · rw [if_pos hc]; exact ih
    · rw [if_neg hc]
      rw [List.nodup_append]
      refine ⟨ih, List.nodup_singleton x, ?_⟩
      intro b hb hbx
      rcases List.mem_singleton.1 hbx with rfl
      apply hc
      rw [List.any_eq_true]
      exact ⟨b, hb, beq_self_eq_true b⟩

theorem uniqueL_eq_singleton {α : Type} [BEq α] [LawfulBEq α] {l : List α} {a : α}
    (hne : a ∈ l) (hall : ∀ b ∈ l, b = a) : uniqueL l = [a] := by
  have hn := nodup_uniqueL l
  have hm : a ∈ uniqueL l := mem_uniqueL.2 hne
  have hall2 : ∀ b ∈ uniqueL l, b = a := fun b hb => hall b (mem_uniqueL.1 hb)
  cases hu : uniqueL l with
  | nil => rw [hu] at hm; cases hm
  | cons b t =>
    rw [hu] at hn hall2
    have hb : b = a := hall2 b (List.mem_cons_self b t)
    cases t with
    | nil => rw [hb]
    | cons c t2 =>
      have hcb : c = a := hall2 c (List.mem_cons_of_mem _ (List.mem_cons_self c t2))
      rw [List.nodup_cons] at hn
      exact absurd (by rw [hb, ← hcb]; exact List.mem_cons_self c t2) hn.1

/-- Index of the first occurrence of `a` in `l` (equal to `l.length` when
`a` is absent). -/
def firstIdx {α : Type} [BEq α] (l : List α) (a : α) : Nat :=
  l.findIdx (fun b => b == a)

theorem firstIdx_lt_length {α : Type} [BEq α] [LawfulBEq α] {l : List α} {a : α}
    (h : a ∈ l) : firstIdx l a < l.length :=
  List.findIdx_lt_length_of_exists ⟨a, h, beq_self_eq_true a⟩

theorem firstIdx_append_left {α : Type} [BEq α] [LawfulBEq α] {l₁ : List α} (l₂ : List α)
    {a : α} (h : a ∈ l₁) : firstIdx (l₁ ++ l₂) a = firstIdx l₁ a := by
  unfold firstIdx
  rw [List.findIdx_append]
  rw [if_pos (show List.findIdx (fun b => b == a) l₁ < l₁.length from firstIdx_lt_length h)]

theorem firstIdx_concat_self {α : Type} [BEq α] [LawfulBEq α] {l : List α} {a : α}
    (h : a ∉ l) : firstIdx (l ++ [a]) a = l.length := by
  unfold firstIdx
  rw [List.findIdx_append]
  have hnf : l.findIdx (fun b => b == a) = l.length := by
    rw [List.findIdx_eq_length]
    intro x hx
    rw [beq_eq_false_iff_ne]
    intro hxa
    exact h (hxa ▸ hx)
  rw [hnf, if_neg (by omega)]
  simp [List.findIdx_cons]

/-- The elements of `uniqueL l` are listed in order of first appearance in
`l`: earlier elements of `uniqueL l` have strictly earlier first
occurrences. -/
theorem uniqueL_pairwise_firstIdx {α : Type} [BEq α] [LawfulBEq α] (l : List α) :
    (uniqueL l).Pairwise (fun a b => firstIdx l a < firstIdx l b) := by
  unfold uniqueL
  induction l using List.reverseRecOn with
  | nil => simp [dedupByFirst_nil]
  | append_singleton l x ih =>
    rw [dedupByFirst_concat]
    by_cases hc : (dedupByFirst (fun y => y) l).any (fun b => b == x) = true
    · rw [if_pos hc]
      refine List.Pairwise.imp_of_mem ?_ ih
      intro a b ha hb hab
      have ha2 : a ∈ l := mem_of_mem_dedupByFirst ha
      have hb2 : b ∈ l := mem_of_mem_dedupByFirst hb
      rw [firstIdx_append_left [x] ha2, firstIdx_append_left [x] hb2]
      exact hab
    · rw [if_neg hc]
      rw [List.pairwise_append]
      refine ⟨?_, List.pairwise_singleton _ _, ?_⟩
      · refine List.Pairwise.imp_of_mem ?_ ih
        intro a b ha hb hab
        rw [firstIdx_append_left [x] (mem_of_mem_dedupByFirst ha),
            firstIdx_append_left [x] (mem_of_mem_dedupByFirst hb)]
        exact hab
      · intro a ha b hb
        rcases List.mem_singleton.1 hb with rfl
        have hx : b ∉ l := by
          intro hmem
          apply hc
          rw [List.any_eq_true]
          have : b ∈ dedupByFirst (fun y => y) l := by
            rw [show (dedupByFirst (fun y => y) l) = uniqueL l from rfl]
            exact mem_uniqueL.2 hmem
          exact ⟨b, this, beq_self_eq_true b⟩
        have ha2 : a ∈ l := mem_of_mem_dedupByFirst ha
        rw [firstIdx_append_left [b] ha2, firstIdx_concat_self hx]
        exact firstIdx_lt_length ha2

/-! ### Properties of `pyStr` and the service codes -/

theorem natDigitsF_congr (n : Nat) : ∀ f₁ f₂ : Nat, n < f₁ → n < f₂ →
    natDigitsF f₁ n = natDigitsF f₂ n := by
  induction n using Nat.strong_induction_on with
  | _ n ih =>
    intro f₁ f₂ h₁ h₂
    match f₁, f₂ with
    | g₁ + 1, g₂ + 1 =>
      show natDigitsF (g₁ + 1) n = natDigitsF (g₂ + 1) n
      unfold natDigitsF
      by_cases h : n < 10
      · rw [if_pos h, if_pos h]
      · rw [if_neg h, if_neg h]
        have hlt : n / 10 < n := Nat.div_lt_self (by omega) (by omega)
        rw [ih (n / 10) hlt g₁ g₂ (by omega) (by omega)]

theorem natDigits_lt10 {n : Nat} (h : n < 10) : natDigits n = [Nat.digitChar n] := by
  unfold natDigits natDigitsF
  rw [if_pos h]

theorem natDigits_ge10 {n : Nat} (h : 10 ≤ n) :
    natDigits n = natDigits (n / 10) ++ [Nat.digitChar (n % 10)] := by
  show natDigitsF (n + 1) n = natDigitsF (n / 10 + 1) (n / 10) ++ [Nat.digitChar (n % 10)]
  conv_lhs => unfold natDigitsF
  rw [if_neg (by omega)]
  have hlt : n / 10 < n := Nat.div_lt_self (by omega) (by omega)
  rw [natDigitsF_congr (n / 10) n (n / 10 + 1) (by omega) (by omega)]

theorem natDigits_ne_nil (n : Nat) : natDigits n ≠ [] := by
  by_cases h : n < 10
  · rw [natDigits_lt10 h]; simp
  · rw [natDigits_ge10 (by omega)]; simp

theorem natDigits_length_ge2 {n : Nat} (h : 10 ≤ n) : 2 ≤ (natDigits n).length := by
  rw [natDigits_ge10 h, List.length_append]
  have := natDigits_ne_nil (n / 10)
  have : 0 < (natDigits (n / 10)).length := List.length_pos.2 this
  simp only [List.length_singleton]
  omega

theorem digitChar_inj_lt10 : ∀ a < 10, ∀ b < 10,
    Nat.digitChar a = Nat.digitChar b → a = b := by decide

theorem natDigits_head_ne_zero : ∀ n : Nat, 1 ≤ n → ∀ c : Char, ∀ t : List Char,
    natDigits n = c :: t → c ≠ '0' := by
  intro n
  induction n using Nat.strong_induction_on with
  | _ n ih =>
    intro h1 c t hct
    by_cases h : n < 10
    · rw [natDigits_lt10 h] at hct
      have hc : c = Nat.digitChar n := (List.head_eq_of_cons_eq hct).symm
      subst hc
      have : ∀ m, m < 10 → 1 ≤ m → Nat.digitChar m ≠ '0' := by decide
      exact this n h h1
    · rw [natDigits_ge10 (by omega)] at hct
      obtain ⟨c0, t0, h0⟩ := List.exists_cons_of_ne_nil (natDigits_ne_nil (n / 10))
      rw [h0, List.cons_append] at hct
      have hc : c = c0 := (List.head_eq_of_cons_eq hct).symm
      rw [hc]
      exact ih (n / 10) (Nat.div_lt_self (by omega) (by omega)) (by omega) c0 t0 h0

theorem natDigits_inj : ∀ m n : Nat, natDigits m = natDigits n → m = n := by
  intro m
  induction m using Nat.strong_induction_on with
  | _ m ih =>
    intro n heq
    by_cases hm : m < 10 <;> by_cases hn : n < 10
    · rw [natDigits_lt10 hm, natDigits_lt10 hn] at heq
      have := List.head_eq_of_cons_eq heq
      exact digitChar_inj_lt10 m hm n hn this
    · exfalso
      have h2 := natDigits_length_ge2 (show 10 ≤ n by omega)
      rw [← heq, natDigits_lt10 hm] at h2
      simp at h2
    · exfalso
      have h2 := natDigits_length_ge2 (show 10 ≤ m by omega)
      rw [heq, natDigits_lt10 hn] at h2
      simp at h2
    · rw [natDigits_ge10 (show 10 ≤ m by omega), natDigits_ge10 (show 10 ≤ n by omega)] at heq
      have hrev := congrArg List.reverse heq
      simp only [List.reverse_append, List.reverse_singleton, List.singleton_append] at hrev
      have hhead : Nat.digitChar (m % 10) = Nat.digitChar (n % 10) :=
        List.head_eq_of_cons_eq hrev
      have htail : (natDigits (m / 10)).reverse = (natDigits (n / 10)).reverse :=
        List.tail_eq_of_cons_eq hrev
      have hdiv : m / 10 = n / 10 :=
        ih (m / 10) (Nat.div_lt_self (by omega) (by omega)) (n / 10)
          (List.reverse_injective htail)
      have hmod : m % 10 = n % 10 :=
        digitChar_inj_lt10 (m % 10) (Nat.mod_lt m (by omega)) (n % 10)
          (Nat.mod_lt n (by omega)) hhead
      omega

/-- The character list of a code string `"S" ++ zfill 2 (pyStr n)` for small `n`. -/
theorem code_data_lt10 {n : Nat} (h : n < 10) :
    ("S" ++ zfill 2 (pyStr n)).data = ['S', '0', Nat.digitChar n] := by
  have hlen : (pyStr n).length = 1 := by
    show (String.mk (natDigits n)).length = 1
    rw [String.length_mk, natDigits_lt10 h]
    rfl
  rw [zfill, if_pos (by omega)]
  rw [String.data_append, String.data_append]
  show ['S'] ++ (List.replicate (2 - (pyStr n).length) '0' ++ natDigits n) = _
  rw [hlen, natDigits_lt10 h]
  rfl

/-- The character list of a code string `"S" ++ zfill 2 (pyStr n)` for `n ≥ 10`. -/
theorem code_data_ge10 {n : Nat} (h : 10 ≤ n) :
    ("S" ++ zfill 2 (pyStr n)).data = 'S' :: natDigits n := by
  have hlen : ¬ (pyStr n).length < 2 := by
    show ¬ (String.mk (natDigits n)).length < 2
    rw [String.length_mk]
    have := natDigits_length_ge2 h
    omega
  rw [zfill, if_neg hlen]
  rw [String.data_append]
  rfl

/-- The full code strings are injective on positive indices. -/
theorem code_inj {m n : Nat} (_hm : 1 ≤ m) (_hn : 1 ≤ n)
    (h : "S" ++ zfill 2 (pyStr m) = "S" ++ zfill 2 (pyStr n)) : m = n := by
  have hdata := congrArg String.data h
  by_cases h10m : m < 10 <;> by_cases h10n : n < 10
  · rw [code_data_lt10 h10m, code_data_lt10 h10n] at hdata
    have : Nat.digitChar m = Nat.digitChar n := by
      simpa using hdata
    exact digitChar_inj_lt10 m h10m n h10n this
  · exfalso
    rw [code_data_lt10 h10m, code_data_ge10 (by omega)] at hdata
    have htail : ['0', Nat.digitChar m] = natDigits n := List.tail_eq_of_cons_eq hdata
    exact natDigits_head_ne_zero n (by omega) '0' [Nat.digitChar m] htail.symm rfl
  · exfalso
    rw [code_data_ge10 (by omega), code_data_lt10 h10n] at hdata
    have htail : natDigits m = ['0', Nat.digitChar n] := List.tail_eq_of_cons_eq hdata
    exact natDigits_head_ne_zero m (by omega) '0' [Nat.digitChar n] htail rfl
  · rw [code_data_ge10 (by omega), code_data_ge10 (by omega)] at hdata
    exact natDigits_inj m n (List.tail_eq_of_cons_eq hdata)

theorem serv_list_length (n : Nat) : (serv_list n).length = n := by
  unfold serv_list
  rw [List.length_map, List.length_range]

theorem serv_list_getElem (n j : Nat) (h : j < (serv_list n).length) :
    (serv_list n)[j] = "S" ++ zfill 2 (pyStr (j + 1)) := by
  unfold serv_list
  rw [List.getElem_map, List.getElem_range]

theorem serv_list_nodup (n : Nat) : (serv_list n).Nodup := by
  unfold serv_list
  refine List.Nodup.map_on ?_ (List.nodup_range n)
  intro a ha b hb hEq
  have := code_inj (m := a + 1) (n := b + 1) (by omega) (by omega) hEq
  omega

/-! ### Lemmas about `dict_get` and `service_lookup` over zipped lists -/

theorem dict_get_zip_get : ∀ (u v : List String), u.Nodup →
    ∀ j, ∀ (hu : j < u.length) (hv : j < v.length),
      dict_get (u.zip v) u[j] = some v[j]
  | [], _, _, j, hu, _ => by simp at hu
  | _ :: _, [], _, j, _, hv => by simp at hv
  | a :: u, b :: v, hn, 0, hu, hv => by
    have hfind : ((a, b) :: u.zip v).find? (fun kv => kv.1 == a) = some (a, b) :=
      List.find?_cons_of_pos _ (by simp)
    show ((((a, b) :: u.zip v).find? (fun kv => kv.1 == a)).map (fun kv => kv.2)) = some b
    rw [hfind]
    rfl
  | a :: u, b :: v, hn, j + 1, hu, hv => by
    have hju : j < u.length := by simpa using hu
    have hjv : j < v.length := by simpa using hv
    have hmem : u[j] ∈ u := List.getElem_mem hju
    have hne : a ≠ u[j] := fun h => (List.nodup_cons.1 hn).1 (h ▸ hmem)
    have hfind : ((a, b) :: u.zip v).find? (fun kv => kv.1 == (u[j] : String)) =
        (u.zip v).find? (fun kv => kv.1 == (u[j] : String)) :=
      List.find?_cons_of_neg _ (by simpa using hne)
    show ((((a, b) :: u.zip v).find? (fun kv => kv.1 == (u[j] : String))).map
      (fun kv => kv.2)) = some v[j]
    rw [hfind]
    exact dict_get_zip_get u v (List.nodup_cons.1 hn).2 j hju hjv

theorem dict_get_zip_eq_some : ∀ (u v : List String) (s c : String),
    dict_get (u.zip v) s = some c →
    ∃ j, ∃ (hu : j < u.length) (hv : j < v.length), u[j] = s ∧ v[j] = c
  | [], v, s, c, h => by simp [dict_get] at h
  | _ :: _, [], s, c, h => by simp [dict_get] at h
  | a :: u, b :: v, s, c, h => by
    by_cases ha : (a == s) = true
    · have hfind : ((a, b) :: u.zip v).find? (fun kv => kv.1 == s) = some (a, b) :=
        List.find?_cons_of_pos _ ha
      rw [show dict_get ((a :: u).zip (b :: v)) s =
        ((((a, b) :: u.zip v).find? (fun kv => kv.1 == s)).map (fun kv => kv.2)) from rfl,
        hfind] at h
      refine ⟨0, by simp, by simp, ?_, ?_⟩
      · simpa using (eq_of_beq ha)
      · simpa using h
    · have hfind : ((a, b) :: u.zip v).find? (fun kv => kv.1 == s) =
          (u.zip v).find? (fun kv => kv.1 == s) :=
        List.find?_cons_of_neg _ (by simpa using ha)
      rw [show dict_get ((a :: u).zip (b :: v)) s =
        ((((a, b) :: u.zip v).find? (fun kv => kv.1 == s)).map (fun kv => kv.2)) from rfl,
        hfind] at h
      obtain ⟨j, hu, hv, hs, hc⟩ := dict_get_zip_eq_some u v s c h
      exact ⟨j + 1, by simpa using hu, by simpa using hv, by simpa using hs,
        by simpa using hc⟩

theorem dict_get_inj {u v : List String} (hv : v.Nodup) {s₁ s₂ c : String}
    (h₁ : dict_get (u.zip v) s₁ = some c) (h₂ : dict_get (u.zip v) s₂ = some c) :
    s₁ = s₂ := by
  obtain ⟨j₁, hu₁, hv₁, hs₁, hc₁⟩ := dict_get_zip_eq_some u v s₁ c h₁
  obtain ⟨j₂, hu₂, hv₂, hs₂, hc₂⟩ := dict_get_zip_eq_some u v s₂ c h₂
  have hj : j₁ = j₂ := (hv.getElem_inj_iff).1 (hc₁.trans hc₂.symm)
  subst hj
  rw [← hs₁, ← hs₂]

theorem service_lookup_zip_get : ∀ (u v : List String), v.Nodup →
    ∀ j, ∀ (hu : j < u.length) (hv : j < v.length),
      service_lookup v[j] (u.zip v) = .ok u[j]
  | [], _, _, j, hu, _ => by simp at hu
  | _ :: _, [], _, j, _, hv => by simp at hv
  | a :: u, b :: v, hn, 0, hu, hv => by
    have hfind : ((a, b) :: u.zip v).find? (fun kv => kv.2 == b) = some (a, b) :=
      List.find?_cons_of_pos _ (by simp)
    show (match ((a, b) :: u.zip v).find? (fun kv => kv.2 == b) with
      | some kv => Except.ok kv.1
      | none => Except.error PyExc.stopIteration) = Except.ok a
    rw [hfind]
  | a :: u, b :: v, hn, j + 1, hu, hv => by
    have hju : j < u.length := by simpa using hu
    have hjv : j < v.length := by simpa using hv
    have hmem : v[j] ∈ v := List.getElem_mem hjv
    have hne : b ≠ v[j] := fun h => (List.nodup_cons.1 hn).1 (h ▸ hmem)
    have hfind : ((a, b) :: u.zip v).find? (fun kv => kv.2 == (v[j] : String)) =
        (u.zip v).find? (fun kv => kv.2 == (v[j] : String)) :=
      List.find?_cons_of_neg _ (by simpa using hne)
    show (match ((a, b) :: u.zip v).find? (fun kv => kv.2 == (v[j] : String)) with
      | some kv => Except.ok kv.1
      | none => Except.error PyExc.stopIteration) = Except.ok u[j]
    rw [hfind]
    exact service_lookup_zip_get u v (List.nodup_cons.1 hn).2 j hju hjv

theorem service_lookup_miss (m : List (String × String)) (c : String)
    (h : ∀ kv ∈ m, kv.2 ≠ c) : service_lookup c m = .error .stopIteration := by
  unfold service_lookup
  have hnone : m.find? (fun kv => kv.2 == c) = none :=
    List.find?_eq_none.2 (fun kv hkv => by simpa using h kv hkv)
  rw [hnone]

/-! ### Lemmas about dates, sorted lists, and pivot products -/

theorem foldlMin_mem : ∀ (ds : List Date) (a : Date),
    ds.foldl (fun x y => if Date.lt y x then y else x) a ∈ a :: ds := by
  intro ds
  induction ds with
  | nil => intro a; simp
  | cons d ds ih =>
    intro a
    have h := ih (if Date.lt d a then d else a)
    simp only [List.foldl_cons]
    rcases List.mem_cons.1 h with h1 | h1
    · rw [h1]
      by_cases hlt : Date.lt d a
      · rw [if_pos hlt]
        exact List.mem_cons_of_mem _ (List.mem_cons_self _ _)
      · rw [if_neg hlt]
        exact List.mem_cons_self _ _
    · exact List.mem_cons_of_mem _ (List.mem_cons_of_mem _ h1)

theorem dateMin_mem : ∀ {l : List Date}, l ≠ [] → dateMin l ∈ l
  | [], h => absurd rfl h
  | d :: ds, _ => foldlMin_mem ds d

theorem sorted_head_min {l : List Int} (hs : List.Sorted (fun a b => a ≤ b) l)
    {h0 : Int} (hh : l.head? = some h0) {x : Int} (hx : x ∈ l) : h0 ≤ x := by
  match l with
  | [] => simp at hh
  | a :: t =>
    have ha : a = h0 := by simpa using hh
    subst ha
    rcases List.mem_cons.1 hx with rfl | h1
    · exact le_refl x
    · exact List.rel_of_sorted_cons hs x h1

theorem cols_filter_pos (cols : List String) (f : Nat → String → Nat) (i : Nat) {c : String}
    (hcols : cols.Nodup) (hc : c ∈ cols) :
    (cols.map (fun y => ((i, y), f i y))).filter (fun e => e.1.1 == i && e.1.2 == c)
      = [((i, c), f i c)] := by
  induction cols with
  | nil => cases hc
  | cons y cols ih =>
    rw [List.map_cons, List.filter_cons]
    rcases List.mem_cons.1 hc with rfl | hmem
    · rw [if_pos (by simp)]
      have hno : (cols.map (fun y2 => ((i, y2), f i y2))).filter
          (fun e => e.1.1 == i && e.1.2 == c) = [] := by
        rw [List.filter_eq_nil_iff]
        intro e he
        obtain ⟨y2, hy2, rfl⟩ := List.mem_map.1 he
        have hne : y2 ≠ c := fun hEq => (List.nodup_cons.1 hcols).1 (hEq ▸ hy2)
        simp [hne]
      rw [hno]
    · have hyne : y ≠ c := fun hEq => (List.nodup_cons.1 hcols).1 (hEq ▸ hmem)
      rw [if_neg (by simp [hyne])]
      exact ih (List.nodup_cons.1 hcols).2 hmem

theorem cols_filter_ne (cols : List String) (f : Nat → String → Nat) (a i : Nat) (c : String)
    (hne : a ≠ i) :
    (cols.map (fun y => ((a, y), f a y))).filter (fun e => e.1.1 == i && e.1.2 == c) = [] := by
  rw [List.filter_eq_nil_iff]
  intro e he
  obtain ⟨y, hy, rfl⟩ := List.mem_map.1 he
  simp [hne]

theorem flat_filter_not_mem (ids : List Nat) (cols : List String) (f : Nat → String → Nat)
    (i : Nat) (c : String) (h : i ∉ ids) :
    (ids.flatMap (fun x => cols.map (fun y => ((x, y), f x y)))).filter
      (fun e => e.1.1 == i && e.1.2 == c) = [] := by
  rw [List.filter_eq_nil_iff]
  intro e he
  obtain ⟨x, hx, hex⟩ := List.mem_flatMap.1 he
  obtain ⟨y, hy, rfl⟩ := List.mem_map.1 hex
  have hne : x ≠ i := fun hEq => h (hEq ▸ hx)
  simp [hne]

theorem prod_filter_eq (ids : List Nat) (cols : List String) (f : Nat → String → Nat)
    {i : Nat} {c : String} (hids : ids.Nodup) (hcols : cols.Nodup)
    (hi : i ∈ ids) (hc : c ∈ cols) :
    (ids.flatMap (fun x => cols.map (fun y => ((x, y), f x y)))).filter
      (fun e => e.1.1 == i && e.1.2 == c) = [((i, c), f i c)] := by
  induction ids with
  | nil => cases hi
  | cons a ids ih =>
    rw [List.flatMap_cons, List.filter_append]
    by_cases hai : a = i
    · subst hai
      rw [cols_filter_pos cols f a hcols hc]
      rw [flat_filter_not_mem ids cols f a c (List.nodup_cons.1 hids).1]
      rw [List.append_nil]
    · rw [cols_filter_ne cols f a i c hai]
      rw [List.nil_append]
      exact ih (List.nodup_cons.1 hids).2
        (by rcases List.mem_cons.1 hi with rfl | hmem; exact absurd rfl hai; exact hmem)

/-! ### Structural facts about `service_map` -/

theorem service_map_length (rows : List Row) :
    (service_map rows).length = (uniqueL (rows.map (fun r => r.service))).length := by
  unfold service_map
  rw [List.length_zip, serv_list_length]
  omega

theorem service_map_snd (rows : List Row) :
    (service_map rows).map (fun kv => kv.2) =
      serv_list (uniqueL (rows.map (fun r => r.service))).length := by
  unfold service_map
  exact List.map_snd_zip (uniqueL (rows.map (fun r => r.service)))
    (serv_list (uniqueL (rows.map (fun r => r.service))).length)
    (le_of_eq (serv_list_length (uniqueL (rows.map (fun r => r.service))).length))

/-- Every service value present in the table is mapped by `service_map` to
the code at its first-appearance index. -/
theorem dict_get_service_map {rows : List Row} {s : String}
    (hs : s ∈ rows.map (fun r => r.service)) :
    ∃ j, ∃ h : j < (uniqueL (rows.map (fun r => r.service))).length,
      (uniqueL (rows.map (fun r => r.service)))[j] = s ∧
      dict_get (service_map rows) s = some ("S" ++ zfill 2 (pyStr (j + 1))) := by
  have hu : s ∈ uniqueL (rows.map (fun r => r.service)) := mem_uniqueL.2 hs
  obtain ⟨j, hj, hgs⟩ := List.mem_iff_getElem.1 hu
  refine ⟨j, hj, hgs, ?_⟩
  have hjv : j < (serv_list (uniqueL (rows.map (fun r => r.service))).length).length := by
    rw [serv_list_length]; exact hj
  have h := dict_get_zip_get (uniqueL (rows.map (fun r => r.service)))
    (serv_list (uniqueL (rows.map (fun r => r.service))).length)
    (nodup_uniqueL _) j hj hjv
  rw [hgs] at h
  rw [show service_map rows = (uniqueL (rows.map (fun r => r.service))).zip
    (serv_list (uniqueL (rows.map (fun r => r.service))).length) from rfl, h]
  rw [serv_list_getElem _ _ hjv]

/-! ### Helper lemmas for age binning -/

theorem age_bins_eq : age_bins = [0, 10, 20, 30, 40, 50, 60, 70, 80, 90, 100] := by decide

theorem digitize_ge100 {a : Int} (h : 100 ≤ a) : digitize a age_bins = 11 := by
  unfold digitize
  have hall : ∀ b ∈ age_bins, (decide (b ≤ a)) = true := by
    intro b hb
    rw [decide_eq_true_iff]
    rw [age_bins_eq] at hb
    fin_cases hb <;> omega
  rw [List.filter_eq_self.2 hall, age_bins_eq]
  rfl

theorem age_bin_label_bounded : ∀ n : Nat, n < 100 →
    age_bin_label (n : Int) =
      some (pyStr (10 * (n / 10)) ++ "-" ++ pyStr (10 * (n / 10) + 9)) := by decide

/-! ### Claim theorems -/

/-- C5: age binning matches the fixed test points — age 0 maps to "0-9",
55 to "50-59", 99 to "90-99", and 100, 150, 999 to "100+" — and in
general the bins have width 10 over [0, 100), left-closed and right-open
(an age a with 0 ≤ a < 100 gets the label "L-(L+9)" for L = 10·(a div 10)),
with the last bin "100+" unbounded above. -/
theorem C5_age_binning :
    (age_bin_label 0 = some "0-9") ∧ (age_bin_label 55 = some "50-59") ∧
    (age_bin_label 99 = some "90-99") ∧ (age_bin_label 100 = some "100+") ∧
    (age_bin_label 150 = some "100+") ∧ (age_bin_label 999 = some "100+") ∧
    (∀ a : Int, 0 ≤ a → a < 100 →
      age_bin_label a =
        some (pyStr (10 * (a.toNat / 10)) ++ "-" ++ pyStr (10 * (a.toNat / 10) + 9))) ∧
    (∀ a : Int, 100 ≤ a → age_bin_label a = some "100+") := by
  refine ⟨by decide, by decide, by decide, by decide, by decide, by decide, ?_, ?_⟩
  · intro a h0 h100
    have hn : a = ((a.toNat : Nat) : Int) := (Int.toNat_of_nonneg h0).symm
    rw [hn]
    exact age_bin_label_bounded a.toNat (by omega)
  · intro a h
    unfold age_bin_label
    simp only [digitize_ge100 h]
    decide

/-- C5 witness: the general clauses of `C5_age_binning` evaluated at the
concrete ages 37 and 123. -/
theorem C5_age_binning_witness :
    age_bin_label 37 = some "30-39" ∧ age_bin_label 123 = some "100+" := by
  constructor
  · have h := C5_age_binning.2.2.2.2.2.2.1 37 (by decide) (by decide)
    exact h.trans (by decide)
  · exact C5_age_binning.2.2.2.2.2.2.2 123 (by decide)

/-- C7: in `get_retention_cohort`, the `elapsed` value attached to each
transaction row is the raw difference of month-of-year numbers — the
event date month number minus the month number of the recipient's
earliest event date (not a calendar-aware month count). -/
theorem C7_elapsed_raw_month_subtraction (rows : List Row) :
    ∀ x ∈ df_retention rows,
      x.elapsed = (x.base.date.month : Int) -
        ((dateMin ((rows.filter (fun r => r.id == x.base.id)).map
          (fun r => r.date))).month : Int) := by
  intro x hx
  obtain ⟨r, _hr, rfl⟩ := List.mem_map.1 hx
  rfl

/-- C7 witness: `C7_elapsed_raw_month_subtraction` evaluated on the
year-boundary table at the January 2021 transaction of recipient 1, whose
elapsed value is 1 − 12 = −11. -/
theorem C7_witness :
    ret_row_jan.elapsed = (ret_row_jan.base.date.month : Int) -
      ((dateMin ((rows_year_boundary.filter
        (fun r => r.id == ret_row_jan.base.id)).map
        (fun r => r.date))).month : Int) :=
  C7_elapsed_raw_month_subtraction rows_year_boundary ret_row_jan (by decide)

/-- C8 counterexample: looking up a code absent from the mapping fails
with `StopIteration` (raised by Python `next` on the exhausted
generator), not with a `NotFoundError`. -/
theorem C8_counterexample :
    service_lookup "S99" [("Food", "S01")] = .error .stopIteration ∧
    service_lookup "S99" [("Food", "S01")] ≠ .error .notFoundError := by decide

/-- C8 (amended): for every code that is not one of the mapping values,
`service_lookup` fails — with `StopIteration`, the error `next` raises on
an exhausted generator, rather than a domain `NotFoundError`; there is no
silent default. -/
theorem C8_amended_unknown_code_fails (m : List (String × String)) (c : String)
    (h : ∀ kv ∈ m, kv.2 ≠ c) : service_lookup c m = .error .stopIteration :=
  service_lookup_miss m c h

/-- C8 witness: `C8_amended_unknown_code_fails` at a concrete mapping and
unknown code. -/
theorem C8_witness :
    service_lookup "S09" [("Food", "S01"), ("Housing", "S02")] = .error .stopIteration :=
  C8_amended_unknown_code_fails [("Food", "S01"), ("Housing", "S02")] "S09" (by decide)

theorem map_eq_self_forall {α : Type} (f : α → α) : ∀ l : List α,
    l.map f = l → ∀ x ∈ l, f x = x := by
  intro l
  induction l with
  | nil => intro _ x hx; cases hx
  | cons a t ih =>
    intro h x hx
    rw [List.map_cons] at h
    have ha : f a = a := List.head_eq_of_cons_eq h
    have ht : t.map f = t := List.tail_eq_of_cons_eq h
    rcases List.mem_cons.1 hx with rfl | hmem
    · exact ha
    · exact ih ht x hmem

/-- C4: for every service value `s` present in the table, the mapping
built by `add_service_label` assigns it a code, and reverse-looking-up
that code with `service_lookup` returns `s` — on the services present the
mapping is a bijection onto its codes. -/
theorem C4_mapping_bijection (rows : List Row) (s : String)
    (hs : s ∈ rows.map (fun r => r.service)) :
    ∃ c, dict_get (service_map rows) s = some c ∧
      service_lookup c (service_map rows) = .ok s := by
  obtain ⟨j, hj, hgs, hget⟩ := dict_get_service_map hs
  refine ⟨"S" ++ zfill 2 (pyStr (j + 1)), hget, ?_⟩
  have hjv : j < (serv_list (uniqueL (rows.map (fun r => r.service))).length).length := by
    rw [serv_list_length]; exact hj
  have h := service_lookup_zip_get (uniqueL (rows.map (fun r => r.service)))
    (serv_list (uniqueL (rows.map (fun r => r.service))).length)
    (serv_list_nodup _) j hj hjv
  rw [serv_list_getElem _ _ hjv] at h
  rw [hgs] at h
  exact h

/-- C4 witness: on the example table, "Housing" maps to "S02" and looking
up "S02" returns "Housing". -/
theorem C4_witness :
    dict_get (service_map rows_example) "Housing" = some "S02" ∧
    service_lookup "S02" (service_map rows_example) = .ok "Housing" := by
  obtain ⟨c, h1, h2⟩ := C4_mapping_bijection rows_example "Housing" (by decide)
  have he : dict_get (service_map rows_example) "Housing" = some "S02" := by decide
  rw [he] at h1
  have hc : c = "S02" := (Option.some.inj h1).symm
  subst hc
  exact ⟨he, h2⟩

/-- C6: in every row of the service summary, `avg_monthly_recipient` is
the exact rational quotient `total_usage / distinct_month` whenever
`distinct_month > 0`, and is NaN (undefined, not silently zero) when
`distinct_month = 0`. -/
theorem C6_avg_monthly_recipient (cats : List String) (rows : List Row) (sr : ServiceRow)
    (hsr : sr ∈ get_service_attribute cats rows) :
    (0 < sr.distinct_month →
      sr.avg_monthly_recipient = .val ((sr.total_usage : ℚ) / (sr.distinct_month : ℚ))) ∧
    (sr.distinct_month = 0 → sr.avg_monthly_recipient = .nan) := by
  obtain ⟨c, _hc, rfl⟩ := List.mem_map.1 hsr
  constructor
  · intro hpos
    have hpos2 : 0 <
        (uniqueL ((rows.filter (fun r => r.service == c)).map (fun r => r.month))).length :=
      hpos
    show natDivF ((rows.filter (fun r => r.service == c)).length)
      ((uniqueL ((rows.filter (fun r => r.service == c)).map (fun r => r.month))).length) = _
    unfold natDivF
    rw [if_neg (by omega)]
  · intro h0
    have h02 :
        (uniqueL ((rows.filter (fun r => r.service == c)).map (fun r => r.month))).length = 0 :=
      h0
    have hu : uniqueL ((rows.filter (fun r => r.service == c)).map (fun r => r.month)) = [] :=
      List.length_eq_zero.1 h02
    have hg : rows.filter (fun r => r.service == c) = [] := by
      cases hgg : rows.filter (fun r => r.service == c) with
      | nil => rfl
      | cons r t =>
        have hmem : r.month ∈ (rows.filter (fun r => r.service == c)).map (fun r => r.month) := by
          rw [hgg]
          exact List.mem_map_of_mem _ (List.mem_cons_self _ _)
        have hmem2 := mem_uniqueL.2 hmem
        rw [hu] at hmem2
        cases hmem2
    show natDivF ((rows.filter (fun r => r.service == c)).length)
      ((uniqueL ((rows.filter (fun r => r.service == c)).map (fun r => r.month))).length) =
        PandasFloat.nan
    rw [hg]
    rfl

/-- C6 witness: `C6_avg_monthly_recipient` on a table using only Food,
with the category domain also containing Housing — the Food row has
average 1/1, the unobserved Housing row has distinct_month 0 and NaN. -/
theorem C6_witness :
    (0 < sr_food.distinct_month ∧
      sr_food.avg_monthly_recipient =
        .val ((sr_food.total_usage : ℚ) / (sr_food.distinct_month : ℚ))) ∧
    (sr_housing.distinct_month = 0 ∧ sr_housing.avg_monthly_recipient = .nan) := by
  have hl : get_service_attribute cats_fh rows_food_only = [sr_food, sr_housing] := rfl
  refine ⟨⟨by decide, ?_⟩, ⟨by decide, ?_⟩⟩
  · have hm : sr_food ∈ get_service_attribute cats_fh rows_food_only := by
      rw [hl]; exact List.mem_cons_self _ _
    exact (C6_avg_monthly_recipient cats_fh rows_food_only sr_food hm).1 (by decide)
  · have hm : sr_housing ∈ get_service_attribute cats_fh rows_food_only := by
      rw [hl]; exact List.mem_cons_of_mem _ (List.mem_cons_self _ _)
    exact (C6_avg_monthly_recipient cats_fh rows_food_only sr_housing hm).2 (by decide)

/-- C10 counterexample: `add_service_label` writes the `serv` column into
the table passed to it (`inplace` column assignment) — the post-call
table differs from the pre-call table. -/
theorem C10_counterexample :
    (add_service_label [mkRow 1 "Food" ⟨2020, 1, 5⟩ "January"]).1 ≠
      [mkRow 1 "Food" ⟨2020, 1, 5⟩ "January"] := by decide

/-- C10 (amended): the aggregation getters build new summary tables, but
the labelers modify the table in place and return it: `add_service_label`
changes every nonempty table whose `serv` column is still absent, and
`add_age_bin` changes any table in which some row's stored `age_bin`
differs from the computed label. -/
theorem C10_amended_labelers_mutate :
    (∀ rows : List Row, rows ≠ [] → (∀ r ∈ rows, r.serv = none) →
      (add_service_label rows).1 ≠ rows) ∧
    (∀ rows : List Row, (∃ r ∈ rows, r.age_bin ≠ age_bin_label r.age) →
      add_age_bin rows ≠ rows) := by
  constructor
  · intro rows hne hall hcontra
    have hcontra2 : rows.map
        (fun r => { r with serv := dict_get (service_map rows) r.service }) = rows := hcontra
    have hf := map_eq_self_forall
      (fun r => { r with serv := dict_get (service_map rows) r.service }) rows hcontra2
    cases rows with
    | nil => exact absurd rfl hne
    | cons r rest =>
      have h1 := hf r (List.mem_cons_self r rest)
      have h3 : dict_get (service_map (r :: rest)) r.service = r.serv :=
        congrArg Row.serv h1
      obtain ⟨j, hj, hg, hget⟩ := dict_get_service_map
        (show r.service ∈ (r :: rest).map (fun r => r.service) from
          List.mem_map_of_mem _ (List.mem_cons_self _ _))
      rw [hget, hall r (List.mem_cons_self r rest)] at h3
      exact Option.noConfusion h3
  · intro rows hex hcontra
    obtain ⟨r, hr, hne2⟩ := hex
    have hcontra2 : rows.map
        (fun r => { r with age_bin := age_bin_label r.age }) = rows := hcontra
    have h1 := map_eq_self_forall
      (fun r => { r with age_bin := age_bin_label r.age }) rows hcontra2 r hr
    have h2 : age_bin_label r.age = r.age_bin := congrArg Row.age_bin h1
    exact hne2 h2.symm

/-- C10 witness: `C10_amended_labelers_mutate` applied to a concrete
one-row table for both labelers. -/
theorem C10_witness :
    (add_service_label [mkRow 2 "Housing" ⟨2020, 1, 6⟩ "January"]).1 ≠
      [mkRow 2 "Housing" ⟨2020, 1, 6⟩ "January"] ∧
    add_age_bin [mkRow 2 "Housing" ⟨2020, 1, 6⟩ "January"] ≠
      [mkRow 2 "Housing" ⟨2020, 1, 6⟩ "January"] :=
  ⟨C10_amended_labelers_mutate.1 _ (by decide) (by decide),
   C10_amended_labelers_mutate.2 _
     ⟨mkRow 2 "Housing" ⟨2020, 1, 6⟩ "January", by decide, by decide⟩⟩

set_option maxRecDepth 10000 in
/-- C9 counterexample: on a table with 100 distinct service values the
first service is assigned "S01" (`str(1).zfill(2)` always pads to width
2), while the claim padding to the digit width needed for the count of
distinct values (3 digits for 100) would give "S001". -/
theorem C9_counterexample :
    dict_get (service_map rows_hundred) "0" = some "S01" ∧
    (service_map rows_hundred).length = 100 ∧
    claim_code 100 1 = "S001" ∧
    ("S01" : String) ≠ "S001" := by decide

/-- C9 (amended): the codes assigned by `add_service_label` are
`"S" ++ str(i).zfill(2)` — zero-padded to width 2 regardless of the count
of distinct service values (so for 100 or more distinct values the width
does not grow as the claim requires) — handed out sequentially in order
of first appearance of each distinct service value: the list of distinct
services is duplicate-free, contains exactly the services present, is
ordered by first occurrence, and its `j`-th entry maps to the code of
index `j + 1`. -/
theorem C9_amended_sequential_codes (rows : List Row) :
    (uniqueL (rows.map (fun r => r.service))).Nodup ∧
    (∀ s, s ∈ uniqueL (rows.map (fun r => r.service)) ↔ s ∈ rows.map (fun r => r.service)) ∧
    (uniqueL (rows.map (fun r => r.service))).Pairwise
      (fun a b => firstIdx (rows.map (fun r => r.service)) a <
        firstIdx (rows.map (fun r => r.service)) b) ∧
    ∀ j, ∀ h : j < (uniqueL (rows.map (fun r => r.service))).length,
      dict_get (service_map rows) (uniqueL (rows.map (fun r => r.service)))[j] =
        some ("S" ++ zfill 2 (pyStr (j + 1))) := by
  refine ⟨nodup_uniqueL _, fun s => mem_uniqueL, uniqueL_pairwise_firstIdx _, ?_⟩
  intro j hj
  have hjv : j < (serv_list (uniqueL (rows.map (fun r => r.service))).length).length := by
    rw [serv_list_length]; exact hj
  have h := dict_get_zip_get (uniqueL (rows.map (fun r => r.service)))
    (serv_list (uniqueL (rows.map (fun r => r.service))).length)
    (nodup_uniqueL _) j hj hjv
  rw [serv_list_getElem _ _ hjv] at h
  exact h

/-- C9 witness: on the example table, the second distinct service (index
1, Housing) maps to the code of index 2, "S02". -/
theorem C9_witness :
    dict_get (service_map rows_example)
      ((uniqueL (rows_example.map (fun r => r.service))).get ⟨1, by decide⟩) =
      some ("S" ++ zfill 2 (pyStr 2)) := by
  have h := (C9_amended_sequential_codes rows_example).2.2.2 1 (by decide)
  simpa [List.get_eq_getElem] using h

/-! ### Lemmas for the recipient summary -/

theorem merge_demo_id (rows : List Row) (rr : RecipientRow) :
    ∀ a ∈ merge_demo rows rr, a.id = rr.id := by
  intro a ha
  unfold merge_demo at ha
  cases h : rows.filter (fun r => r.id == rr.id) with
  | nil =>
    rw [h] at ha
    rcases List.mem_singleton.1 ha with rfl
    rfl
  | cons m ms =>
    rw [h] at ha
    obtain ⟨r, _hr, rfl⟩ := List.mem_map.1 ha
    rfl

theorem merge_demo_ne_nil (rows : List Row) (rr : RecipientRow) :
    merge_demo rows rr ≠ [] := by
  unfold merge_demo
  cases h : rows.filter (fun r => r.id == rr.id) with
  | nil => simp
  | cons m ms => simp

theorem merge_demo_exists_id (rows : List Row) (rr : RecipientRow) :
    ∃ a ∈ merge_demo rows rr, a.id = rr.id := by
  obtain ⟨a, ha⟩ := List.exists_mem_of_ne_nil _ (merge_demo_ne_nil rows rr)
  exact ⟨a, ha, merge_demo_id rows rr a ha⟩

/-- C1: the recipient summary has exactly one row per distinct recipient
id present in the input — an id occurring in the input appears in exactly
one output row, an absent id in none. -/
theorem C1_one_row_per_recipient (rows : List Row) (i : Nat) :
    (get_recipient_attribute rows).countP (fun rr => rr.id == i) =
      if rows.any (fun r => r.id == i) then 1 else 0 := by
  unfold get_recipient_attribute
  have hc := dedupByFirst_countP (fun rr : RecipientRow => rr.id)
    (((List.insertionSort (fun a b => a ≤ b)
        (uniqueL (rows.map (fun r => r.id)))).map (agg_row rows)).flatMap
      (merge_demo rows)) i
  refine hc.trans ?_
  have hiff : (((List.insertionSort (fun a b => a ≤ b)
      (uniqueL (rows.map (fun r => r.id)))).map (agg_row rows)).flatMap
        (merge_demo rows)).any (fun a => a.id == i) =
      rows.any (fun r => r.id == i) := by
    rw [Bool.eq_iff_iff, List.any_eq_true, List.any_eq_true]
    constructor
    · rintro ⟨a, ha, hai⟩
      obtain ⟨rr, hrr, hbr⟩ := List.mem_flatMap.1 ha
      have hid : a.id = rr.id := merge_demo_id rows rr a hbr
      obtain ⟨k, hk, rfl⟩ := List.mem_map.1 hrr
      have hai2 : a.id = i := by simpa using hai
      have hk2 : k ∈ uniqueL (rows.map (fun r => r.id)) :=
        ((List.perm_insertionSort (fun a b => a ≤ b) _).mem_iff).1 hk
      obtain ⟨r, hr, hrk⟩ := List.mem_map.1 (mem_uniqueL.1 hk2)
      refine ⟨r, hr, ?_⟩
      have : r.id = i := by
        rw [hrk]
        rw [show (agg_row rows k).id = k from rfl] at hid
        rw [← hid, hai2]
      simpa using this
    · rintro ⟨r, hr, hri⟩
      have hri2 : r.id = i := by simpa using hri
      have h1 : i ∈ rows.map (fun r => r.id) := by
        rw [← hri2]
        exact List.mem_map_of_mem _ hr
      have h3 : i ∈ List.insertionSort (fun a b => a ≤ b)
          (uniqueL (rows.map (fun r => r.id))) :=
        ((List.perm_insertionSort (fun a b => a ≤ b) _).mem_iff).2 (mem_uniqueL.2 h1)
      obtain ⟨a, ha, haid⟩ := merge_demo_exists_id rows (agg_row rows i)
      refine ⟨a, List.mem_flatMap.2 ⟨agg_row rows i, List.mem_map_of_mem _ h3, ha⟩, ?_⟩
      have : a.id = i := by
        rw [haid]
        rfl
      simpa using this
  rw [hiff]

/-! ### Lemmas for the id-service matrix -/

theorem add_service_label_serv (rows : List Row) :
    ∀ r ∈ (add_service_label rows).1, r.serv = dict_get (service_map rows) r.service := by
  intro r hr
  obtain ⟨r0, _h0, rfl⟩ := List.mem_map.1 hr
  rfl

/-- C3: the recipient-by-service matrix over the full code domain of the
mapping is dense — every matrix row carries one column per assigned
service code, and each cell is 1 when the recipient used the service of
that code and 0 when not (the distinct-service count of the `(id, serv)`
group, which is at most 1). -/
theorem C3_dense_id_service_matrix (rows : List Row) :
    ∀ p ∈ get_id_service_matrix ((service_map rows).map (fun kv => kv.2))
        (add_service_label rows).1,
      (p.2.map (fun cv => cv.1) = (service_map rows).map (fun kv => kv.2)) ∧
      ∀ cv ∈ p.2,
        cv.2 = if (add_service_label rows).1.any
            (fun r => r.id == p.1 && r.serv == some cv.1) then 1 else 0 := by
  intro p hp
  unfold get_id_service_matrix at hp
  obtain ⟨i, hi, rfl⟩ := List.mem_map.1 hp
  constructor
  · simp [List.map_map]
  · intro cv hcv
    obtain ⟨c, hc, rfl⟩ := List.mem_map.1 hcv
    have hids : (List.insertionSort (fun a b => a ≤ b)
        (uniqueL ((((add_service_label rows).1.filter
          (fun r => r.serv.isSome)).map (fun r => r.id))))).Nodup :=
      ((List.perm_insertionSort (fun a b => a ≤ b) _).nodup_iff).2 (nodup_uniqueL _)
    have hcols : ((service_map rows).map (fun kv => kv.2)).Nodup := by
      rw [service_map_snd]
      exact serv_list_nodup _
    have hfe := prod_filter_eq _ _ (fun x y => num_serv (add_service_label rows).1 x y)
      hids hcols hi hc
    show ((((List.insertionSort (fun a b => a ≤ b)
        (uniqueL ((((add_service_label rows).1.filter
          (fun r => r.serv.isSome)).map (fun r => r.id))))).flatMap
        (fun x => ((service_map rows).map (fun kv => kv.2)).map
          (fun y => ((x, y), num_serv (add_service_label rows).1 x y)))).filter
        (fun e => e.1.1 == i && e.1.2 == c)).map (fun x => x.2)).sum = _
    rw [hfe]
    simp only [List.map_cons, List.map_nil, List.sum_cons, List.sum_nil, Nat.add_zero]
    by_cases hany : ((add_service_label rows).1.any
        (fun r => r.id == i && r.serv == some c)) = true
    · rw [if_pos hany]
      rw [List.any_eq_true] at hany
      obtain ⟨r0, hr0, hr0p⟩ := hany
      rw [Bool.and_eq_true] at hr0p
      have hid0 : r0.id = i := by simpa using hr0p.1
      have hserv0 : r0.serv = some c := by simpa using hr0p.2
      have hr0f : r0 ∈ (add_service_label rows).1.filter
          (fun r => r.id == i && r.serv == some c) := by
        rw [List.mem_filter]
        exact ⟨hr0, by simp [hid0, hserv0]⟩
      have hall : ∀ s ∈ ((add_service_label rows).1.filter
          (fun r => r.id == i && r.serv == some c)).map (fun r => r.service),
          s = r0.service := by
        intro s hs
        obtain ⟨r1, hr1, rfl⟩ := List.mem_map.1 hs
        rw [List.mem_filter] at hr1
        have hserv1 : r1.serv = some c := by
          have := hr1.2
          rw [Bool.and_eq_true] at this
          simpa using this.2
        have hd1 : dict_get (service_map rows) r1.service = some c := by
          rw [← add_service_label_serv rows r1 hr1.1]
          exact hserv1
        have hd0 : dict_get (service_map rows) r0.service = some c := by
          rw [← add_service_label_serv rows r0 hr0]
          exact hserv0
        exact dict_get_inj (serv_list_nodup _) hd1 hd0
      have hne : r0.service ∈ ((add_service_label rows).1.filter
          (fun r => r.id == i && r.serv == some c)).map (fun r => r.service) :=
        List.mem_map_of_mem _ hr0f
      show (uniqueL (((add_service_label rows).1.filter
        (fun r => r.id == i && r.serv == some c)).map (fun r => r.service))).length = 1
      rw [uniqueL_eq_singleton hne hall]
      rfl
    · rw [if_neg hany]
      have hfil : (add_service_label rows).1.filter
          (fun r => r.id == i && r.serv == some c) = [] := by
        rw [List.filter_eq_nil_iff]
        intro r hr hp2
        exact hany (List.any_eq_true.2 ⟨r, hr, hp2⟩)
      show (uniqueL (((add_service_label rows).1.filter
        (fun r => r.id == i && r.serv == some c)).map (fun r => r.service))).length = 0
      rw [hfil]
      rfl

/-- C3 witness: `C3_dense_id_service_matrix` on the example table at the
matrix row of recipient 1, whose cells are Food (S01) = 1 and Housing
(S02) = 0. -/
theorem C3_witness :
    (mat_row_one.2.map (fun cv => cv.1) =
      (service_map rows_example).map (fun kv => kv.2)) ∧
    (("S02", (0 : Nat)).2 = if (add_service_label rows_example).1.any
        (fun r => r.id == mat_row_one.1 && r.serv == some ("S02", (0 : Nat)).1)
      then 1 else 0) := by
  have h := C3_dense_id_service_matrix rows_example mat_row_one (by decide)
  exact ⟨h.1, h.2 ("S02", 0) (by decide)⟩

/-! ### Lemmas for the retention cohort -/

theorem natDivF_self {n : Nat} (h : n ≠ 0) : natDivF n n = .val 1 := by
  unfold natDivF
  rw [if_neg h]
  rw [div_self (by exact_mod_cast h : ((n : ℚ) ≠ 0))]

/-- C2 counterexample: on the year-boundary table the single cohort
(first date 2020-12-05) has two active recipients at offset 0, yet the
elapsed = 0 column of the ratio table holds 2.0, not 1.0 — the division
uses the first pivot column, which here is the elapsed = −11 column. -/
theorem C2_counterexample :
    count_cell rows_year_boundary ⟨2020, 12, 5⟩ 0 = some 2 ∧
    ratio_cell rows_year_boundary ⟨2020, 12, 5⟩ 0 = PandasFloat.val 2 ∧
    ratio_cell rows_year_boundary ⟨2020, 12, 5⟩ 0 ≠ PandasFloat.val 1 ∧
    ((⟨2020, 12, 5⟩ : Date),
      [((-11 : Int), natDivF 1 1), ((0 : Int), natDivF 2 1)]) ∈
        df_ratio_table rows_year_boundary := by
  have hred : ratio_cell rows_year_boundary ⟨2020, 12, 5⟩ 0 = natDivF 2 1 := rfl
  refine ⟨by decide, ?_, ?_, ?_⟩
  · rw [hred]
    unfold natDivF
    rw [if_neg (by omega)]
    norm_num
  · rw [hred]
    unfold natDivF
    rw [if_neg (by omega)]
    intro hbad
    have h21 : ((2 : ℚ) / (1 : ℚ)) = 1 := PandasFloat.val.inj hbad
    norm_num at h21
  · rw [show df_ratio_table rows_year_boundary =
      [((⟨2020, 12, 5⟩ : Date),
        [((-11 : Int), natDivF 1 1), ((0 : Int), natDivF 2 1)])] from rfl]
    exact List.mem_cons_self _ _

/-- C2 (amended): provided no elapsed offset in the retention table is
negative (no recipient returns across a calendar year boundary after the
first event), every cell of the elapsed = 0 column of the retention
ratio table equals 1.0. -/
theorem C2_amended_ratio_column_one (rows : List Row)
    (hpos : ∀ x ∈ df_retention rows, 0 ≤ x.elapsed) :
    ∀ fd row, (fd, row) ∈ df_ratio_table rows → ∀ v, ((0 : Int), v) ∈ row →
      v = PandasFloat.val 1 := by
  intro fd row hrow v hv
  unfold df_ratio_table at hrow
  obtain ⟨fd2, hfd2, heq⟩ := List.mem_map.1 hrow
  have hroweq : row = (elapsed_cols rows).map (fun e => (e, ratio_cell rows fd2 e)) :=
    (congrArg Prod.snd heq).symm
  rw [hroweq] at hv
  obtain ⟨e, he, heq2⟩ := List.mem_map.1 hv
  have he0 : e = 0 := congrArg Prod.fst heq2
  have hveq : v = ratio_cell rows fd2 e := (congrArg Prod.snd heq2).symm
  subst he0
  -- fd2 is a cohort first date, so some retention row has this first_date
  have hfd3 : fd2 ∈ uniqueL ((df_retention rows).map (fun x => x.first_date)) :=
    ((List.perm_insertionSort Date.le _).mem_iff).1 hfd2
  obtain ⟨x, hx, hxfd⟩ := List.mem_map.1 (mem_uniqueL.1 hfd3)
  obtain ⟨r, hr, rfl⟩ := List.mem_map.1 hx
  have hxfd2 : recipient_first_date rows r.id = fd2 := hxfd
  -- the minimum date of the id group of r is attained by some row r2
  have hrg : r ∈ rows.filter (fun r2 => r2.id == r.id) :=
    List.mem_filter.2 ⟨hr, by simp⟩
  have hgne : (rows.filter (fun r2 => r2.id == r.id)).map (fun r2 => r2.date) ≠ [] := by
    intro hnil
    rw [List.map_eq_nil_iff] at hnil
    rw [hnil] at hrg
    cases hrg
  obtain ⟨r2, hr2g, hr2d⟩ := List.mem_map.1 (dateMin_mem hgne)
  have hr2rows : r2 ∈ rows := (List.mem_filter.1 hr2g).1
  have hr2id : r2.id = r.id := by
    have h2 := (List.mem_filter.1 hr2g).2
    simpa using h2
  have hr2first : recipient_first_date rows r2.id = fd2 := by
    rw [show recipient_first_date rows r2.id =
      dateMin ((rows.filter (fun r3 => r3.id == r2.id)).map (fun r3 => r3.date)) from rfl]
    rw [hr2id]
    exact hxfd2
  have hr2date : r2.date = fd2 := by
    rw [← hr2first]
    rw [show recipient_first_date rows r2.id =
      dateMin ((rows.filter (fun r3 => r3.id == r2.id)).map (fun r3 => r3.date)) from rfl]
    rw [hr2id]
    exact hr2d
  -- its retention row lies in the (fd2, elapsed 0) pivot group
  have hy : mk_retention rows r2 ∈ df_retention rows :=
    List.mem_map_of_mem _ hr2rows
  have hyelap : (mk_retention rows r2).elapsed = 0 := by
    show (r2.date.month : Int) - ((recipient_first_date rows r2.id).month : Int) = 0
    rw [hr2date, hr2first]
    omega
  have hyfirst : (mk_retention rows r2).first_date = fd2 := hr2first
  have hyg : mk_retention rows r2 ∈ (df_retention rows).filter
      (fun x => x.first_date == fd2 && x.elapsed == (0 : Int)) := by
    rw [List.mem_filter]
    refine ⟨hy, ?_⟩
    rw [Bool.and_eq_true]
    exact ⟨by simpa using hyfirst, by simpa using hyelap⟩
  -- hence the count cell at (fd2, 0) is a positive distinct-id count
  have hgne2 : ¬(((df_retention rows).filter
      (fun x => x.first_date == fd2 && x.elapsed == (0 : Int))).isEmpty = true) := by
    rw [List.isEmpty_iff]
    intro hnil
    rw [hnil] at hyg
    cases hyg
  have hcount : count_cell rows fd2 0 = some ((uniqueL (((df_retention rows).filter
      (fun x => x.first_date == fd2 && x.elapsed == (0 : Int))).map
        (fun x => x.base.id))).length) := by
    unfold count_cell
    rw [if_neg hgne2]
  have hnpos : 0 < (uniqueL (((df_retention rows).filter
      (fun x => x.first_date == fd2 && x.elapsed == (0 : Int))).map
        (fun x => x.base.id))).length := by
    have hmem2 : r2.id ∈ uniqueL (((df_retention rows).filter
        (fun x => x.first_date == fd2 && x.elapsed == (0 : Int))).map
          (fun x => x.base.id)) :=
      mem_uniqueL.2 (List.mem_map_of_mem _ hyg)
    exact List.length_pos.2 (List.ne_nil_of_mem hmem2)
  -- the first pivot column is the elapsed 0 column
  have h0mem : (0 : Int) ∈ elapsed_cols rows := he
  have hnonneg : ∀ z ∈ elapsed_cols rows, 0 ≤ z := by
    intro z hz
    have hz2 : z ∈ uniqueL ((df_retention rows).map (fun x2 => x2.elapsed)) :=
      ((List.perm_insertionSort (fun a b => a ≤ b) _).mem_iff).1 hz
    obtain ⟨x2, hx2, hx2e⟩ := List.mem_map.1 (mem_uniqueL.1 hz2)
    rw [← hx2e]
    exact hpos x2 hx2
  have hsorted : List.Sorted (fun a b : Int => a ≤ b) (elapsed_cols rows) :=
    List.sorted_insertionSort _ _
  obtain ⟨h0, t0, hht⟩ := List.exists_cons_of_ne_nil (List.ne_nil_of_mem h0mem)
  have hhead : (elapsed_cols rows).head? = some h0 := by rw [hht]; rfl
  have hh0le : h0 ≤ 0 := sorted_head_min hsorted hhead h0mem
  have hh0ge : 0 ≤ h0 := hnonneg h0 (by rw [hht]; exact List.mem_cons_self _ _)
  have hh00 : h0 = 0 := le_antisymm hh0le hh0ge
  have hbind : (elapsed_cols rows).head?.bind (fun e0 => count_cell rows fd2 e0) =
      count_cell rows fd2 0 := by
    rw [hhead, hh00]
    rfl
  -- evaluate the ratio cell
  rw [hveq]
  unfold ratio_cell
  rw [hbind, hcount]
  exact natDivF_self (by omega)

/-- C2 witness: `C2_amended_ratio_column_one` on the example table (no
year boundary) at the cohort of 2020-01-05 and the elapsed = 0 column. -/
theorem C2_witness :
    ratio_cell rows_example ⟨2020, 1, 5⟩ 0 = PandasFloat.val 1 :=
  C2_amended_ratio_column_one rows_example (by decide) ⟨2020, 1, 5⟩
    ((elapsed_cols rows_example).map (fun e => (e, ratio_cell rows_example ⟨2020, 1, 5⟩ e)))
    (List.mem_map_of_mem _ (by decide))
    (ratio_cell rows_example ⟨2020, 1, 5⟩ 0)
    (List.mem_map_of_mem _ (by decide))

end DhsUtil
